import Mathlib

/-!
Verification of the local email store and filter pipeline of
`askmyemail.py` (functions `save_emails_to_json`, `load_saved_emails`,
`filter_emails`, `summarize_emails_with_gemini`), shallowly embedded in
Lean.  File contents are modelled at the parse level (absent / corrupt /
good), Python datetimes as wall-clock seconds plus an optional UTC
offset, and Python strings as `String` / `List Char`.
-/

namespace AskMyEmail

/-- One fetched message's metadata, as built by `list_unread_emails`:
the dict `{id, date, from, subject}`.  The Python key `from` is spelled
`from_` here because `from` is a Lean keyword. -/
structure MessageRecord where
  id : String
  date : String
  from_ : String
  subject : String
deriving DecidableEq, Repr

/-- The persisted `emails.json` artifact, at the level `json.load`
observes it: missing file, a file that fails to parse, or a parsed list
of records. -/
inductive Artifact where
  | absent
  | corrupt
  | good (records : List MessageRecord)
deriving DecidableEq, Repr

/-- The error surfaced when the artifact exists but cannot be parsed
(`json.JSONDecodeError` in the source, `CorruptStoreError` in the
design's taxonomy). -/
inductive StoreError where
  | corruptStore
deriving DecidableEq, Repr

/-- Records held by an artifact (empty for a missing file; the corrupt
case is never read successfully, so it contributes nothing). -/
def storeRecords : Artifact → List MessageRecord
  | .absent => []
  | .corrupt => []
  | .good rs => rs

/-- Embeds `load_saved_emails`: returns `[]` when the file does not
exist, otherwise `json.load`s it; a file that fails to parse raises,
and the exception propagates to the caller (no handler in the source). -/
def load_saved_emails (state : Artifact) : Except StoreError (List MessageRecord) :=
  match state with
  | .absent => .ok []
  | .corrupt => .error StoreError.corruptStore
  | .good rs => .ok rs

/-- Embeds `save_emails_to_json`.  The returned `Nat` is the count the
function reports (`len(new_emails)` in the saved-message print, `0` on
the two early-return paths).  Reading a corrupt existing file raises
inside `json.load` before anything is written, so the error leaves the
artifact argument untouched. -/
def save_emails_to_json (emails : List MessageRecord) (state : Artifact) :
    Except StoreError (Artifact × Nat) :=
  if emails.isEmpty then
    .ok (state, 0)
  else
    (match state with
      | .corrupt => Except.error StoreError.corruptStore
      | .absent => Except.ok []
      | .good old => Except.ok old).bind fun (old_data : List MessageRecord) =>
      let new_emails := emails.filter fun (e : MessageRecord) =>
        !decide (e.id ∈ old_data.map MessageRecord.id)
      if new_emails.isEmpty then
        .ok (state, 0)
      else
        .ok (Artifact.good (old_data ++ new_emails), new_emails.length)

/-- The file contents the store artifact passes through while
`save_emails_to_json` performs its write: `open(filename, "w")` first
truncates the file in place (an empty file is not parseable JSON, hence
a corrupt artifact), then `json.dump` writes the serialized combined
list.  There is no temporary file and no rename. -/
def save_write_trace (prior : Artifact) (combined : List MessageRecord) : List Artifact :=
  [prior, Artifact.corrupt, Artifact.good combined]

/-- Runs a sequence of `save_emails_to_json` calls, threading the
artifact state; the first corrupt-store error aborts the run, as an
uncaught exception would. -/
def run_merges : Artifact → List (List MessageRecord) → Except StoreError Artifact
  | st, [] => .ok st
  | st, b :: bs =>
    match save_emails_to_json b st with
    | .ok (st', _) => run_merges st' bs
    | .error e => .error e

/-- Reference description of iterated merging, used to state the
dedup/order claims: each batch contributes, in order, exactly its
records whose `id` has not been seen before that batch. -/
def merge_spec (acc : List MessageRecord) : List (List MessageRecord) → List MessageRecord
  | [] => acc
  | b :: bs =>
    merge_spec
      (acc ++ b.filter fun e => !decide (e.id ∈ acc.map MessageRecord.id)) bs

/-- A parsed Python `datetime`: seconds on the local wall clock since
the epoch, plus the `tzinfo` as an optional UTC offset in seconds
(`none` is a naive datetime). -/
structure PyDateTime where
  wall : Int
  tzOffset : Option Int
deriving DecidableEq, Repr

/-- Embeds the inner `to_utc_aware` of `filter_emails`, at the level of
the UTC instant the resulting aware datetime denotes: a naive datetime
gets `tzinfo=timezone.utc` (offset 0), an aware one is converted with
`astimezone(timezone.utc)` (instant = wall − offset).  The source's
`if not dt: return None` guard never fires on a datetime (datetimes are
always truthy), and comparison of aware datetimes compares instants. -/
def to_utc_aware (dt : PyDateTime) : Int :=
  dt.wall - (dt.tzOffset.getD 0)

/-- Reads exactly `n` decimal digits off the front of `cs`,
accumulating their value onto `acc`. -/
def readFixedNat : Nat → Nat → List Char → Option (Nat × List Char)
  | 0, acc, cs => some (acc, cs)
  | _ + 1, _, [] => none
  | n + 1, acc, c :: cs =>
    if c.isDigit then readFixedNat n (acc * 10 + (c.toNat - 48)) cs else none

/-- Consumes one expected character. -/
def expectChar (c : Char) : List Char → Option (List Char)
  | x :: rest => if x == c then some rest else none
  | [] => none

/-- Days since 1970-01-01 of a proleptic-Gregorian civil date
(standard era-based calendar arithmetic). -/
def daysFromCivil (y : Int) (m d : Nat) : Int :=
  let y' : Int := if m ≤ 2 then y - 1 else y
  let era : Int := (if 0 ≤ y' then y' else y' - 399) / 400
  let yoe : Int := y' - era * 400
  let mp : Int := (Int.ofNat m + 9) % 12
  let doy : Int := (153 * mp + 2) / 5 + (Int.ofNat d - 1)
  let doe : Int := yoe * 365 + yoe / 4 - yoe / 100 + doy
  era * 146097 + doe - 719468

/-- Parses `HH:MM:SS` into seconds within the day. -/
def parseTimeOfDay (cs : List Char) : Option (Nat × List Char) := do
  let (h, cs) ← readFixedNat 2 0 cs
  let cs ← expectChar ':' cs
  let (mi, cs) ← readFixedNat 2 0 cs
  let cs ← expectChar ':' cs
  let (s, cs) ← readFixedNat 2 0 cs
  guard (h ≤ 23 ∧ mi ≤ 59 ∧ s ≤ 59)
  some (h * 3600 + mi * 60 + s, cs)

/-- Parses the timezone suffix after a time: nothing (naive), `Z`, or
`±HH:MM`, as a UTC offset in seconds. -/
def parseOffsetTail : List Char → Option (Option Int)
  | [] => some none
  | ['Z'] => some (some 0)
  | '+' :: rest => do
    let (h, rest) ← readFixedNat 2 0 rest
    let rest ← expectChar ':' rest
    let (mi, rest) ← readFixedNat 2 0 rest
    guard rest.isEmpty
    some (some (Int.ofNat (h * 3600 + mi * 60)))
  | '-' :: rest => do
    let (h, rest) ← readFixedNat 2 0 rest
    let rest ← expectChar ':' rest
    let (mi, rest) ← readFixedNat 2 0 rest
    guard rest.isEmpty
    some (some (-(Int.ofNat (h * 3600 + mi * 60))))
  | _ => none

/-- A concrete instantiation of the external `dateutil.parser.parse`
used by witnesses and counterexamples: accepts ISO-8601 `YYYY-MM-DD`,
optionally followed by `THH:MM:SS` and a `Z` or `±HH:MM` offset, and
returns `none` where the library raises (for example on `"notadate"`
or the empty string).  Inputs outside this fragment are `none`. -/
def parseDateISO (s : String) : Option PyDateTime := do
  let cs := s.data
  let (y, cs) ← readFixedNat 4 0 cs
  let cs ← expectChar '-' cs
  let (m, cs) ← readFixedNat 2 0 cs
  let cs ← expectChar '-' cs
  let (d, cs) ← readFixedNat 2 0 cs
  guard (1 ≤ m ∧ m ≤ 12 ∧ 1 ≤ d ∧ d ≤ 31)
  let base : Int := daysFromCivil (Int.ofNat y) m d * 86400
  match cs with
  | [] => some ⟨base, none⟩
  | 'T' :: rest => do
    let (secs, rest) ← parseTimeOfDay rest
    let off ← parseOffsetTail rest
    some ⟨base + Int.ofNat secs, off⟩
  | _ => none

/-- Python `str.lower`, on the code-point list of a string. -/
def pyLower (s : String) : List Char :=
  s.data.map Char.toLower

/-- Whether `needle` occurs at the start of `hay` (helper for the
Python `in` substring test). -/
def charsStartWith : List Char → List Char → Bool
  | [], _ => true
  | _ :: _, [] => false
  | a :: as, b :: bs => a == b && charsStartWith as bs

/-- Python `needle in hay` on strings: `needle` occurs contiguously
somewhere in `hay`. -/
def charsContain (needle : List Char) : List Char → Bool
  | [] => charsStartWith needle []
  | c :: rest => charsStartWith needle (c :: rest) || charsContain needle rest

/-- The `since` stage of `filter_emails`: skipped when the argument is
`None` or falsy (empty string); otherwise the threshold is parsed with
`dateutil.parser.parse` under a `try`, and an unparseable threshold
leaves `since_dt = None`, which skips the stage as well.  With a parsed
threshold, a record is kept when its own date parses and its UTC
instant is `>=` the threshold's; a record whose date raises in the
parser is dropped. -/
def sinceStage (parseDate : String → Option PyDateTime) (since : Option String)
    (out : List MessageRecord) : List MessageRecord :=
  match since with
  | none => out
  | some s =>
    if s = "" then out
    else
      match parseDate s with
      | none => out
      | some since_dt =>
        out.filter fun e =>
          match parseDate e.date with
          | none => false
          | some d => decide (to_utc_aware since_dt ≤ to_utc_aware d)

/-- A substring stage of `filter_emails` (`from_contains` /
`subject_contains`): skipped when the argument is `None` or the empty
string; otherwise a case-insensitive substring test on the given
field. -/
def containsStage (field : MessageRecord → String) (crit : Option String)
    (out : List MessageRecord) : List MessageRecord :=
  match crit with
  | none => out
  | some c =>
    if c = "" then out
    else out.filter fun e => charsContain (pyLower c) (pyLower (field e))

/-- Embeds `filter_emails`: the three stages applied in source order
(`since`, then `from_contains`, then `subject_contains`), each
reassigning `out`.  The external `dateutil` parser is passed in as
`parseDate` (returning `none` where the library raises). -/
def filter_emails (parseDate : String → Option PyDateTime)
    (emails : List MessageRecord)
    (since from_contains subject_contains : Option String) : List MessageRecord :=
  containsStage MessageRecord.subject subject_contains
    (containsStage MessageRecord.from_ from_contains
      (sinceStage parseDate since emails))

/-- One bullet line of the Gemini digest, with the source's per-field
slices `date[:25]`, `from[:60]`, `subject[:140]` (Python slicing on
code points). -/
def bullet_line (e : MessageRecord) : List Char :=
  ("- ").data ++ e.date.data.take 25 ++ (" | ").data ++ e.from_.data.take 60
    ++ (" | ").data ++ e.subject.data.take 140

/-- The bullet lines of the digest: one per record of `emails[:50]`. -/
def bullet_lines (emails : List MessageRecord) : List (List Char) :=
  (emails.take 50).map bullet_line

/-- The digest text: `"\n".join(bullet_lines)[:8000]`. -/
def digest (emails : List MessageRecord) : List Char :=
  (List.intercalate ('\n' :: []) (bullet_lines emails)).take 8000

/-- The fixed text of the prompt before the interpolated digest. -/
def promptHeader : List Char :=
  ("\nYou are an executive assistant.\nSummarize the following email headers into:\n1) 5–8 concise bullet points describing main themes.\n2) A short 'Action Items' checklist (✅ style).\n3) Group related emails if possible.\n\nEmails:\n").data

/-- The full prompt built from the digest. -/
def prompt_text (d : List Char) : List Char :=
  promptHeader ++ d ++ ('\n' :: [])

/-- Embeds `summarize_emails_with_gemini`, with the external Gemini
call abstracted as `generate`: an empty record list returns the
sentinel before the prompt is built or the model invoked; otherwise the
model is called on the prompt containing the digest. -/
def summarize_emails_with_gemini (generate : List Char → String)
    (emails : List MessageRecord) : String :=
  if emails.isEmpty then
    "No emails matched your filters."
  else
    generate (prompt_text (digest emails))

/-! Concrete records used by witnesses and counterexamples. -/

/-- A record dated before the sample thresholds. -/
def recA : MessageRecord := ⟨"a", "2025-09-01", "alice@example.com", "hello"⟩

/-- A record dated exactly on the sample threshold instant. -/
def recB : MessageRecord := ⟨"b", "2025-10-01T00:00:00Z", "Bob <bob@example.com>", "Quarterly meeting"⟩

/-- A record whose date header does not parse. -/
def recC : MessageRecord := ⟨"c", "garbage", "carol@example.com", "junk"⟩

/-- A record dated after the sample thresholds. -/
def recD : MessageRecord := ⟨"d", "2025-10-20", "dan@example.com", "notes"⟩

/-- A second record carrying the same `id` as `recA`. -/
def recDupA : MessageRecord := ⟨"a", "2025-10-02", "other@example.com", "duplicate id"⟩

/-! Helper lemmas shared by the claim theorems. -/

/-- The records a batch contributes on top of an existing collection:
its members whose `id` is not already present. -/
def newAgainst (old b : List MessageRecord) : List MessageRecord :=
  b.filter fun e => !decide (e.id ∈ old.map MessageRecord.id)

theorem sinceStage_sublist (pd : String → Option PyDateTime) (since : Option String)
    (out : List MessageRecord) : List.Sublist (sinceStage pd since out) out := by
  unfold sinceStage
  match since with
  | none => exact List.Sublist.refl out
  | some s =>
    by_cases hs : s = ""
    · simp [hs]
    · simp only [hs, if_false]
      match parseDate : pd s with
      | none => exact List.Sublist.refl out
      | some dt => exact List.filter_sublist out

theorem containsStage_sublist (field : MessageRecord → String) (crit : Option String)
    (out : List MessageRecord) : List.Sublist (containsStage field crit out) out := by
  unfold containsStage
  match crit with
  | none => exact List.Sublist.refl out
  | some c =>
    by_cases hc : c = ""
    · simp [hc]
    · simp only [hc, if_false]
      exact List.filter_sublist out

theorem filter_emails_sublist (pd : String → Option PyDateTime)
    (emails : List MessageRecord) (s f c : Option String) :
    List.Sublist (filter_emails pd emails s f c) emails :=
  ((containsStage_sublist _ c _).trans (containsStage_sublist _ f _)).trans
    (sinceStage_sublist pd s emails)

/-- C8: filtering with `since = S` and `from_contains = F` together
equals filtering by `since = S` first and `from_contains = F` second;
the stages are conjunctive, every absent criterion passes all records
unchanged, and the output is a sublist of the input (relative order
preserved, no reordering, no duplication of elements). -/
theorem filter_conjunction_composes (pd : String → Option PyDateTime)
    (records : List MessageRecord) (S F : String) :
    (filter_emails pd records (some S) (some F) none =
      filter_emails pd (filter_emails pd records (some S) none none)
        none (some F) none) ∧
    filter_emails pd records none none none = records ∧
    ∀ s f c, List.Sublist (filter_emails pd records s f c) records :=
  ⟨rfl, rfl, fun s f c => filter_emails_sublist pd records s f c⟩

/-- C10: an empty string passed as `since`, `from_contains` or
`subject_contains` is falsy in the source's `if` guards, so the
corresponding filtering stage is skipped exactly as when the argument
is `None`. -/
theorem empty_string_criteria_behave_as_absent
    (pd : String → Option PyDateTime) (records : List MessageRecord)
    (s f c : Option String) :
    filter_emails pd records (some "") f c = filter_emails pd records none f c ∧
    filter_emails pd records s (some "") c = filter_emails pd records s none c ∧
    filter_emails pd records s f (some "") = filter_emails pd records s f none := by
  refine ⟨?_, ?_, ?_⟩ <;> simp [filter_emails, sinceStage, containsStage]

/-- C3 counterexample: with the `since` argument `"notadate"`, which no
date parser accepts, the filter returns every record instead of the
empty sequence the claim requires. -/
theorem since_unparseable_not_fail_closed_cex :
    filter_emails parseDateISO [recA] (some "notadate") none none = [recA] ∧
    filter_emails parseDateISO [recA] (some "notadate") none none ≠ [] := by
  constructor <;> decide

/-- C3 amended: when the `since` argument's text cannot be parsed, the
`since` criterion is skipped entirely — the parse failure leaves
`since_dt = None` and the stage passes every record through (fail-open
at the criterion level), so the filter with no other criteria returns
the input unchanged. -/
theorem since_unparseable_skips_since_criterion
    (pd : String → Option PyDateTime) (records : List MessageRecord)
    (s : String) (h : pd s = none) :
    filter_emails pd records (some s) none none = records := by
  unfold filter_emails containsStage sinceStage
  by_cases hs : s = "" <;> simp [hs, h]

/-- C3 amended, witnessed at `since = "notadate"` on a one-record
list. -/
theorem since_unparseable_skips_since_criterion_witness :
    parseDateISO "notadate" = none ∧
    filter_emails parseDateISO [recB] (some "notadate") none none = [recB] :=
  ⟨by decide,
    since_unparseable_skips_since_criterion parseDateISO [recB] "notadate" (by decide)⟩

/-- C6: with a parseable, non-empty `since` threshold, a record whose
`date` field fails to parse never appears in the filtered result
(fail-closed per record); a record whose date parses is kept exactly
when its UTC instant is `>=` the threshold's UTC instant (inclusive);
and a naive datetime is normalized as if it carried the UTC offset 0. -/
theorem since_filter_date_semantics
    (pd : String → Option PyDateTime) (records : List MessageRecord)
    (s : String) (since_dt : PyDateTime)
    (hs : s ≠ "") (hp : pd s = some since_dt) :
    (∀ e ∈ records, pd e.date = none →
        e ∉ filter_emails pd records (some s) none none) ∧
    (∀ e d, pd e.date = some d →
        (e ∈ filter_emails pd records (some s) none none ↔
          e ∈ records ∧ to_utc_aware since_dt ≤ to_utc_aware d)) ∧
    (∀ w : Int, to_utc_aware ⟨w, none⟩ = to_utc_aware ⟨w, some 0⟩) := by
  have hred : filter_emails pd records (some s) none none =
      records.filter fun e =>
        match pd e.date with
        | none => false
        | some d => decide (to_utc_aware since_dt ≤ to_utc_aware d) := by
    unfold filter_emails containsStage sinceStage
    simp [hs, hp]
  refine ⟨?_, ?_, fun w => rfl⟩
  · intro e _ hnone hmem
    rw [hred, List.mem_filter, hnone] at hmem
    simpa using hmem.2
  · intro e d hd
    rw [hred, List.mem_filter, hd]
    simp

/-- C6, witnessed at threshold `"2025-10-01"`: the unparseable-dated
`recC` is dropped, and `recB`, dated exactly on the (UTC-labelled)
threshold instant, is kept — the boundary is inclusive. -/
theorem since_filter_date_semantics_witness :
    recC ∈ ([recA, recB, recC, recD] : List MessageRecord) ∧
    parseDateISO recC.date = none ∧
    recC ∉ filter_emails parseDateISO [recA, recB, recC, recD]
        (some "2025-10-01") none none ∧
    recB ∈ filter_emails parseDateISO [recA, recB, recC, recD]
        (some "2025-10-01") none none := by
  have h := since_filter_date_semantics parseDateISO [recA, recB, recC, recD]
    "2025-10-01" ⟨1759276800, none⟩ (by decide) (by decide)
  exact ⟨by decide, by decide, h.1 recC (by decide) (by decide),
    (h.2.1 recB ⟨1759276800, some 0⟩ (by decide)).mpr ⟨by decide, by decide⟩⟩

theorem storeRecords_good (rs : List MessageRecord) :
    storeRecords (Artifact.good rs) = rs := rfl

theorem merge_spec_cons (acc b : List MessageRecord) (bs : List (List MessageRecord)) :
    merge_spec acc (b :: bs) =
      merge_spec (acc ++ b.filter fun e =>
        !decide (e.id ∈ acc.map MessageRecord.id)) bs := rfl

theorem save_ok_of_not_corrupt (b : List MessageRecord) (st : Artifact)
    (hst : st ≠ Artifact.corrupt) :
    save_emails_to_json b st =
      .ok (if (newAgainst (storeRecords st) b).isEmpty then st
            else Artifact.good (storeRecords st ++ newAgainst (storeRecords st) b),
          (newAgainst (storeRecords st) b).length) := by
  match st, hst with
  | .absent, _ =>
    cases b with
    | nil => simp [save_emails_to_json, newAgainst]
    | cons x xs =>
      simp only [save_emails_to_json, newAgainst, storeRecords, List.isEmpty_cons,
        Bool.false_eq_true, if_false, Except.bind]
      by_cases hni : ((x :: xs).filter fun e =>
          !decide (e.id ∈ ([] : List MessageRecord).map MessageRecord.id)).isEmpty
      · have hnil := List.isEmpty_iff.mp hni
        rw [if_pos hni, if_pos hni, hnil, List.length_nil]
      · rw [if_neg hni, if_neg hni]
  | .good old, _ =>
    cases b with
    | nil => simp [save_emails_to_json, newAgainst]
    | cons x xs =>
      simp only [save_emails_to_json, newAgainst, storeRecords, List.isEmpty_cons,
        Bool.false_eq_true, if_false, Except.bind]
      by_cases hni : ((x :: xs).filter fun e =>
          !decide (e.id ∈ old.map MessageRecord.id)).isEmpty
      · have hnil := List.isEmpty_iff.mp hni
        rw [if_pos hni, if_pos hni, hnil, List.length_nil]
      · rw [if_neg hni, if_neg hni]

theorem run_merges_spec (bs : List (List MessageRecord)) :
    ∀ st : Artifact, st ≠ Artifact.corrupt →
      ∃ st', run_merges st bs = .ok st' ∧ st' ≠ Artifact.corrupt ∧
        storeRecords st' = merge_spec (storeRecords st) bs := by
  induction bs with
  | nil => exact fun st h => ⟨st, rfl, h, rfl⟩
  | cons b bs ih =>
    intro st h
    have hstep := save_ok_of_not_corrupt b st h
    by_cases hne : (newAgainst (storeRecords st) b).isEmpty
    · rw [if_pos hne] at hstep
      have hfil : newAgainst (storeRecords st) b = [] := List.isEmpty_iff.mp hne
      obtain ⟨st', hrun, hc, hs⟩ := ih st h
      refine ⟨st', ?_, hc, ?_⟩
      · unfold run_merges
        rw [hstep]
        exact hrun
      · rw [hs, merge_spec_cons,
          show (b.filter fun e =>
              !decide (e.id ∈ (storeRecords st).map MessageRecord.id)) =
            ([] : List MessageRecord) from hfil, List.append_nil]
    · rw [if_neg hne] at hstep
      obtain ⟨st', hrun, hc, hs⟩ :=
        ih (Artifact.good (storeRecords st ++ newAgainst (storeRecords st) b))
          (fun hcon => Artifact.noConfusion hcon)
      refine ⟨st', ?_, hc, ?_⟩
      · unfold run_merges
        rw [hstep]
        exact hrun
      · rw [hs, merge_spec_cons]
        rfl

/-- C1: starting from an absent store, merging batch `A` and then
batch `B` succeeds and persists exactly `A` followed by the records of
`B` whose `id` does not occur in `A`, in their original relative
orders. -/
theorem merge_and_save_dedup_two_batches (A B : List MessageRecord) :
    ∃ st, run_merges Artifact.absent [A, B] = .ok st ∧
      storeRecords st =
        A ++ B.filter fun e => !decide (e.id ∈ A.map MessageRecord.id) := by
  obtain ⟨st, h1, _, h3⟩ :=
    run_merges_spec [A, B] Artifact.absent (fun hcon => Artifact.noConfusion hcon)
  refine ⟨st, h1, ?_⟩
  rw [h3]
  show merge_spec [] [A, B] = _
  rw [merge_spec_cons, merge_spec_cons]
  simp [merge_spec]

/-- Ids contributed by iterated merging stay duplicate-free as long as
the accumulator's ids are and every batch's ids are. -/
theorem merge_spec_nodup (bs : List (List MessageRecord)) :
    ∀ acc : List MessageRecord, (acc.map MessageRecord.id).Nodup →
      (∀ b ∈ bs, (b.map MessageRecord.id).Nodup) →
      ((merge_spec acc bs).map MessageRecord.id).Nodup := by
  induction bs with
  | nil => exact fun acc ha _ => ha
  | cons b bs ih =>
    intro acc ha hb
    rw [merge_spec_cons]
    apply ih
    · rw [List.map_append]
      refine List.Nodup.append ha ?_ ?_
      · exact ((List.filter_sublist b).map MessageRecord.id).nodup
          (hb b (List.mem_cons_self b bs))
      · intro a hacc hfil
        obtain ⟨e, he, rfl⟩ := List.mem_map.mp hfil
        obtain ⟨-, hpred⟩ := List.mem_filter.mp he
        simp only [Bool.not_eq_eq_eq_not, Bool.not_true, decide_eq_false_iff_not] at hpred
        exact hpred hacc
    · exact fun b' hb' => hb b' (List.mem_cons_of_mem b hb')

/-- C4 counterexample: a single input batch carrying two records with
the same `id` (`recA` and `recDupA`) is persisted with both copies —
the merge only deduplicates against previously stored ids, not within
the batch — so the persisted `id`s are not pairwise distinct. -/
theorem persisted_ids_duplicate_within_batch_cex :
    run_merges Artifact.absent [[recA, recDupA]] =
      .ok (Artifact.good [recA, recDupA]) ∧
    ¬ ((storeRecords (Artifact.good [recA, recDupA])).map MessageRecord.id).Nodup := by
  constructor
  · rfl
  · decide

/-- C4 amended: after every sequence of merges starting from an absent
store, the persisted `id`s are pairwise distinct provided each input
batch's ids are pairwise distinct (duplicates inside one batch are
kept as-is); the persisted order is exactly the insertion order
described by `merge_spec` — batches appended in order, each filtered
against previously seen ids, never re-sorted. -/
theorem persisted_ids_nodup_of_batchwise_nodup (bs : List (List MessageRecord))
    (h : ∀ b ∈ bs, (b.map MessageRecord.id).Nodup) :
    ∃ st, run_merges Artifact.absent bs = .ok st ∧
      ((storeRecords st).map MessageRecord.id).Nodup ∧
      storeRecords st = merge_spec [] bs := by
  obtain ⟨st, h1, _, h3⟩ :=
    run_merges_spec bs Artifact.absent (fun hcon => Artifact.noConfusion hcon)
  exact ⟨st, h1, by rw [h3]; exact merge_spec_nodup bs [] List.nodup_nil h, h3⟩

/-- C4 amended, witnessed on the batches `[[recA, recB], [recB, recC]]`
(each internally duplicate-free, overlapping across batches). -/
theorem persisted_ids_nodup_witness :
    ∃ st, run_merges Artifact.absent [[recA, recB], [recB, recC]] = .ok st ∧
      ((storeRecords st).map MessageRecord.id).Nodup ∧
      storeRecords st = merge_spec [] [[recA, recB], [recB, recC]] :=
  persisted_ids_nodup_of_batchwise_nodup [[recA, recB], [recB, recC]] (by decide)

/-- C7: if a merge with input `emails` succeeds and leaves the store
in state `st'`, then merging the same `emails` again reports 0 records
added and leaves `st'` unchanged (the second call hits the
all-already-saved early return, or the empty-input early return). -/
theorem merge_and_save_idempotent
    (emails : List MessageRecord) (st st' : Artifact) (n : Nat)
    (h : save_emails_to_json emails st = .ok (st', n)) :
    save_emails_to_json emails st' = .ok (st', 0) := by
  cases emails with
  | nil =>
    have h0 : st = st' := by
      simp only [save_emails_to_json, List.isEmpty_nil, if_true, Except.ok.injEq,
        Prod.mk.injEq] at h
      exact h.1
    subst h0
    simp [save_emails_to_json]
  | cons x xs =>
    have hst : st ≠ Artifact.corrupt := by
      intro hcon
      subst hcon
      simp [save_emails_to_json, Except.bind] at h
    rw [save_ok_of_not_corrupt (x :: xs) st hst, Except.ok.injEq, Prod.mk.injEq] at h
    obtain ⟨h1, -⟩ := h
    by_cases hne : (newAgainst (storeRecords st) (x :: xs)).isEmpty
    · rw [if_pos hne] at h1
      subst h1
      rw [save_ok_of_not_corrupt (x :: xs) st hst, if_pos hne,
        List.isEmpty_iff.mp hne, List.length_nil]
    · rw [if_neg hne] at h1
      subst h1
      have hkey : newAgainst
          (storeRecords st ++ newAgainst (storeRecords st) (x :: xs)) (x :: xs) = [] := by
        rw [newAgainst, List.filter_eq_nil_iff]
        intro e he
        simp only [Bool.not_eq_true', decide_eq_false_iff_not, not_not]
        rw [List.map_append]
        by_cases hmem : e.id ∈ (storeRecords st).map MessageRecord.id
        · exact List.mem_append_left _ hmem
        · refine List.mem_append_right _ ?_
          refine List.mem_map.mpr ⟨e, ?_, rfl⟩
          exact List.mem_filter.mpr ⟨he, by simpa using hmem⟩
      rw [save_ok_of_not_corrupt (x :: xs)
        (Artifact.good (storeRecords st ++ newAgainst (storeRecords st) (x :: xs)))
        (fun hc => Artifact.noConfusion hc)]
      simp [storeRecords_good, hkey]

/-- C7, witnessed by merging `[recA, recB]` into an absent store and
then merging the same batch again. -/
theorem merge_and_save_idempotent_witness :
    save_emails_to_json [recA, recB] (Artifact.good [recA, recB]) =
      .ok (Artifact.good [recA, recB], 0) :=
  merge_and_save_idempotent [recA, recB] Artifact.absent
    (Artifact.good [recA, recB]) 2 (by rfl)

/-- C5: loading an absent artifact yields the empty collection (not an
error); loading a corrupt artifact surfaces the corrupt-store error;
loading a good artifact yields its records; and a merge attempted over
a corrupt artifact fails with the same error before anything is
written (the error is raised by `json.load`, prior to the write), so
the corrupt file is never silently overwritten. -/
theorem load_and_corrupt_store_semantics
    (rs emails : List MessageRecord) (hne : emails ≠ []) :
    load_saved_emails Artifact.absent = .ok [] ∧
    load_saved_emails Artifact.corrupt = .error StoreError.corruptStore ∧
    load_saved_emails (Artifact.good rs) = .ok rs ∧
    save_emails_to_json emails Artifact.corrupt = .error StoreError.corruptStore := by
  refine ⟨rfl, rfl, rfl, ?_⟩
  cases emails with
  | nil => exact absurd rfl hne
  | cons x xs => rfl

/-- C5, witnessed at a one-record batch over a corrupt artifact. -/
theorem load_and_corrupt_store_semantics_witness :
    load_saved_emails Artifact.absent = .ok [] ∧
    save_emails_to_json [recA] Artifact.corrupt = .error StoreError.corruptStore :=
  ⟨(load_and_corrupt_store_semantics [] [recA] (by decide)).1,
   (load_and_corrupt_store_semantics [] [recA] (by decide)).2.2.2⟩

/-- C2 counterexample: merging `[recB]` over the persisted state
`[recA]` drives the file through the truncated (unparsable) state that
`open(filename, "w")` leaves before `json.dump` completes; that
intermediate artifact is neither the prior state nor the new combined
state, so a failure between truncation and completed write leaves a
partial/truncated artifact — there is no write-to-temp-then-rename. -/
theorem save_truncates_in_place_cex :
    save_emails_to_json [recB] (Artifact.good [recA]) =
      .ok (Artifact.good [recA, recB], 1) ∧
    Artifact.corrupt ∈ save_write_trace (Artifact.good [recA]) [recA, recB] ∧
    Artifact.corrupt ≠ Artifact.good [recA] ∧
    Artifact.corrupt ≠ Artifact.good [recA, recB] := by
  exact ⟨rfl, by decide, by decide, by decide⟩

/-- C2 amended: on success `merge_and_save` either reports 0 added and
leaves the state unchanged, or fully persists the prior records
followed by the new ones; but the write that produces the new state is
an in-place truncate-then-write of the target file — its trace starts
at the prior artifact, passes through a truncated (corrupt) artifact,
and only then reaches the combined artifact, so a failure mid-write
leaves a truncated artifact rather than the prior state. -/
theorem save_write_in_place
    (emails : List MessageRecord) (st st' : Artifact) (n : Nat)
    (h : save_emails_to_json emails st = .ok (st', n)) :
    (n = 0 → st' = st) ∧
    (0 < n →
      st' = Artifact.good (storeRecords st ++ newAgainst (storeRecords st) emails) ∧
      save_write_trace st (storeRecords st ++ newAgainst (storeRecords st) emails) =
        [st, Artifact.corrupt, st']) := by
  cases emails with
  | nil =>
    simp only [save_emails_to_json, List.isEmpty_nil, if_true, Except.ok.injEq,
      Prod.mk.injEq] at h
    obtain ⟨h1, h2⟩ := h
    subst h1
    exact ⟨fun _ => rfl, fun hn => absurd h2.symm (by omega)⟩
  | cons x xs =>
    have hst : st ≠ Artifact.corrupt := by
      intro hcon
      subst hcon
      simp [save_emails_to_json, Except.bind] at h
    rw [save_ok_of_not_corrupt (x :: xs) st hst, Except.ok.injEq, Prod.mk.injEq] at h
    obtain ⟨h1, h2⟩ := h
    by_cases hne : (newAgainst (storeRecords st) (x :: xs)).isEmpty
    · rw [if_pos hne] at h1
      refine ⟨fun _ => h1.symm, fun hn => ?_⟩
      rw [List.isEmpty_iff.mp hne, List.length_nil] at h2
      omega
    · rw [if_neg hne] at h1
      refine ⟨fun hn0 => ?_, fun _ => ⟨h1.symm, by rw [← h1]; rfl⟩⟩
      rw [← h2, List.length_eq_zero] at hn0
      exact absurd (List.isEmpty_iff.mpr hn0) hne

/-- C2 amended, witnessed by the same concrete merge as the
counterexample. -/
theorem save_write_in_place_witness :
    Artifact.good [recA, recB] =
      Artifact.good (storeRecords (Artifact.good [recA]) ++
        newAgainst (storeRecords (Artifact.good [recA])) [recB]) ∧
    save_write_trace (Artifact.good [recA])
        (storeRecords (Artifact.good [recA]) ++
          newAgainst (storeRecords (Artifact.good [recA])) [recB]) =
      [Artifact.good [recA], Artifact.corrupt, Artifact.good [recA, recB]] :=
  (save_write_in_place [recB] (Artifact.good [recA])
    (Artifact.good [recA, recB]) 1 (by rfl)).2 (by decide)

/-- A stand-in for the external Gemini call, used only to witness that
the digest builder is independent of it on empty input. -/
def genStub : List Char → String := fun _ => "stub summary"

/-- C9: on an empty record list the summarizer returns the no-input
sentinel for every possible external generator (so the generator is
never consulted); on a non-empty list it calls the generator on the
prompt built from the digest, whose bullet list covers exactly the
first `min 50 length` records, each line bounded by its per-field
truncations (2 + 25 + 3 + 60 + 3 + 140 = 233 characters), with the
joined digest capped at 8000 characters. -/
theorem digest_empty_short_circuit_and_bounds
    (generate : List Char → String) (emails : List MessageRecord) :
    (emails = [] → summarize_emails_with_gemini generate emails =
        "No emails matched your filters.") ∧
    (emails ≠ [] → summarize_emails_with_gemini generate emails =
        generate (prompt_text (digest emails))) ∧
    (bullet_lines emails).length = min 50 emails.length ∧
    (∀ l ∈ bullet_lines emails, l.length ≤ 233) ∧
    (digest emails).length ≤ 8000 := by
  refine ⟨?_, ?_, ?_, ?_, ?_⟩
  · rintro rfl
    rfl
  · intro h
    simp [summarize_emails_with_gemini, List.isEmpty_iff, h]
  · simp [bullet_lines]
  · intro l hl
    obtain ⟨e, -, rfl⟩ := List.mem_map.mp hl
    simp only [bullet_line, List.length_append, List.length_take, List.length_cons,
      List.length_nil]
    omega
  · simp only [digest, List.length_take]
    exact Nat.min_le_left _ _

/-- C9, witnessed on the empty list and a one-record list. -/
theorem digest_empty_short_circuit_witness :
    summarize_emails_with_gemini genStub [] = "No emails matched your filters." ∧
    summarize_emails_with_gemini genStub [recA] =
      genStub (prompt_text (digest [recA])) :=
  ⟨(digest_empty_short_circuit_and_bounds genStub []).1 rfl,
   (digest_empty_short_circuit_and_bounds genStub [recA]).2.1 (by decide)⟩

end AskMyEmail
